import Mathlib

/-!
Verification of the grains module (`salt/modules/grains.py`): a node-local,
path-addressable attribute store.  Python values are embedded as the inductive
type `Value`; dictionaries are association lists with unique keys; strings are
lists of characters (`Str`).  The in-memory store `__grains__` is passed
explicitly as a `Dict`, and the durable grains file together with the YAML
serializer is abstracted by `FileRead` (the parse outcome of the file at the
moment a write operation loads it) and a `writeOk` flag (whether the final
serialization to disk succeeds).  The external refresh-signal file and the
`saltutil.sync_grains` call have no observable effect on the store and are
not modelled.
-/

set_option autoImplicit false

namespace grains

/-- Python string: a list of characters. -/
abbrev Str := List Char

/-- Embedding of the Python values the grains module manipulates: `None`,
booleans, integers, strings, lists and dictionaries (association lists with
string keys, unique, in insertion order). -/
inductive Value where
  | null : Value
  | bool : Bool → Value
  | int : Int → Value
  | str : Str → Value
  | list : List Value → Value
  | dict : List (Str × Value) → Value

/-- A Python dictionary with string keys. -/
abbrev Dict := List (Str × Value)

/-- `d[k]` lookup: first binding of the key, if any. -/
def dget : Dict → Str → Option Value
  | [], _ => none
  | (k', v) :: rest, k => if k' = k then some v else dget rest k

/-- `k in d`. -/
def dhas (d : Dict) (k : Str) : Bool :=
  (dget d k).isSome

/-- `d[k] = v`: replace the binding in place if the key is present, append
otherwise (Python dict assignment preserves insertion order). -/
def dset : Dict → Str → Value → Dict
  | [], k, v => [(k, v)]
  | (k', v') :: rest, k, v =>
      if k' = k then (k, v) :: rest else (k', v') :: dset rest k v

/-- `del d[k]`: drop the binding of the key. -/
def ddel : Dict → Str → Dict
  | [], _ => []
  | (k', v') :: rest, k => if k' = k then ddel rest k else (k', v') :: ddel rest k

/-- `val is None`. -/
def Value.isNull : Value → Bool
  | .null => true
  | _ => false

/-- `isinstance(v, collections.Mapping)` / `isinstance(v, dict)`. -/
def Value.isDict : Value → Bool
  | .dict _ => true
  | _ => false

/-- `isinstance(v, list)`. -/
def Value.isList : Value → Bool
  | .list _ => true
  | _ => false

/-- Python truthiness of an embedded value (`if merge:`): `None`, `False`,
`0`, and empty strings/lists/dicts are falsy. -/
def truthy : Value → Bool
  | .null => false
  | .bool b => b
  | .int i => i != 0
  | .str s => !s.isEmpty
  | .list xs => !xs.isEmpty
  | .dict d => !d.isEmpty

mutual
/-- Python `==` on embedded values, used by the `in` membership tests of the
list mutators.  Structural; dictionary comparison is pairwise in order (keys
are unique and no claim compares reordered dictionaries). -/
def vbeq : Value → Value → Bool
  | .null, .null => true
  | .bool a, .bool b => a == b
  | .int a, .int b => a == b
  | .str a, .str b => a == b
  | .list a, .list b => vbeqL a b
  | .dict a, .dict b => vbeqD a b
  | _, _ => false

/-- Pairwise `==` on lists of values. -/
def vbeqL : List Value → List Value → Bool
  | [], [] => true
  | x :: xs, y :: ys => vbeq x y && vbeqL xs ys
  | _, _ => false

/-- Pairwise `==` on dictionary entries. -/
def vbeqD : List (Str × Value) → List (Str × Value) → Bool
  | [], [] => true
  | (k, v) :: xs, (k', v') :: ys => k == k' && vbeq v v' && vbeqD xs ys
  | _, _ => false
end

/-- `v in xs` (Python list membership, by `==`). -/
def valIn (xs : List Value) (v : Value) : Bool :=
  xs.any (fun x => vbeq x v)

/-- `c in s` for a character and a string. -/
def strHas (c : Char) : Str → Bool
  | [] => false
  | x :: xs => x = c || strHas c xs

/-- `s.split(c)` with no maxsplit (also `s.rsplit(c)`): every maximal
delimiter-free run, keeping empty segments; the empty string yields `[""]`. -/
def splitAll (c : Char) : Str → List Str
  | [] => [[]]
  | x :: xs =>
      match splitAll c xs with
      | [] => [[]]
      | y :: ys => if x = c then [] :: y :: ys else (x :: y) :: ys

/-- `s.split(c, 1)` for a string known to contain the delimiter: the part
before the first occurrence and the part after it. -/
def splitFirst (c : Char) : Str → Str × Str
  | [] => ([], [])
  | x :: xs =>
      if x = c then ([], xs)
      else
        let p := splitFirst c xs
        (x :: p.1, p.2)

/-- Modelled from the spec: `salt.utils.traverse_dict_and_list` (PathResolver,
not part of `src/`) walks a nested value segment by segment; if a segment is
absent at any level, or an intermediate value is not a mapping while further
segments remain, the traversal fails and the caller's default is returned.
The spec leaves traversal through list values unspecified, so a list (or any
non-mapping) with segments remaining fails; no claim traverses into a list. -/
def traverseVal : Value → List Str → Option Value
  | v, [] => some v
  | .dict d, s :: rest =>
      match dget d s with
      | some v => traverseVal v rest
      | none => none
  | _, _ :: _ => none

/-- `grains.get(key, default)`: split the key on the `:` delimiter and walk
the store, returning `default` when the traversal fails (the module only ever
uses the default delimiter). -/
def get (store : Dict) (key : Str) (dflt : Value) : Value :=
  (traverseVal (.dict store) (splitAll ':' key)).getD dflt

/-- Outcome of loading the grains file at the start of a write operation:
the file does not exist, the YAML parse raises (carrying the rendered
exception text), or the parse returns a value (possibly not a mapping). -/
inductive FileRead where
  | absent : FileRead
  | parseError : Str → FileRead
  | parsed : Value → FileRead

/-- The mapping a write operation starts from after loading the grains file:
`{}` when the file is missing, the parsed dictionary when the parse returned
one, `{}` when it returned anything else (`if not isinstance(grains, dict):
grains = {}`).  The parse-error case never reaches this point. -/
def loadedGrains : FileRead → Dict
  | .absent => []
  | .parseError _ => []
  | .parsed (.dict d) => d
  | .parsed _ => []

/-- Result of a write operation: the Python return value (an error string or
the requested mapping), the in-memory store after the call, and the mapping
serialized to the grains file (`none` when nothing was written, either
because the operation returned early or because the write failed). -/
structure SetvalsOut where
  ret : Value
  store : Dict
  written : Option Dict

/-- Loop body of `setvals`: process one `(key, val)` pair against the loaded
file mapping and the store.  `val is None and destructive is True` deletes
the key from the loaded mapping and, only then, from the store when present;
every other pair assigns into both. -/
def applyGrain (destructive : Bool) (acc : Dict × Dict) (kv : Str × Value) : Dict × Dict :=
  let grains := acc.1
  let store := acc.2
  let key := kv.1
  let val := kv.2
  if val.isNull && destructive then
    if dhas grains key then
      (ddel grains key, if dhas store key then ddel store key else store)
    else
      (grains, store)
  else
    (dset grains key val, dset store key val)

/-- The `for key, val in new_grains.items()` loop of `setvals`. -/
def applyGrains (destructive : Bool) (pairs : List (Str × Value)) (grains store : Dict) : Dict × Dict :=
  pairs.foldl (applyGrain destructive) (grains, store)

/-- `grains.setvals(grains, destructive)`: raise (`Except.error`) when the
input is not a mapping; return the parse failure as a descriptive string when
the loaded grains file is unreadable; otherwise fold every pair into the
loaded mapping and the store, serialize the merged mapping (recorded in
`written` when the disk write succeeds, dropped with only a log line when it
fails), and return `new_grains` unchanged. -/
def setvals (grains : Value) (destructive : Bool) (fileRead : FileRead) (writeOk : Bool) (store : Dict) : Except String SetvalsOut :=
  match grains with
  | .dict pairs =>
      match fileRead with
      | .parseError e =>
          .ok ⟨.str ("Unable to read existing grains file: ".data ++ e), store, none⟩
      | fr =>
          let acc := applyGrains destructive pairs (loadedGrains fr) store
          .ok ⟨.dict pairs, acc.2, if writeOk then some acc.1 else none⟩
  | _ => .error "setvals grains must be a dictionary."

/-- `grains.setval(key, val, destructive)` = `setvals({key: val}, destructive)`. -/
def setval (key : Str) (val : Value) (destructive : Bool) (fileRead : FileRead) (writeOk : Bool) (store : Dict) : Except String SetvalsOut :=
  setvals (.dict [(key, val)]) destructive fileRead writeOk store

/-- `grains._serial_sanitizer(instr)`: keep the first
`int(math.floor(length * .75))` characters and replace the rest with `X`.
`0.75` is a dyadic rational, so the floating-point product is exact and the
cut index equals `3 * length / 4` in truncating natural division. -/
def _serial_sanitizer (instr : Str) : Str :=
  let length := instr.length
  let index := 3 * length / 4
  instr.take index ++ List.replicate (length - index) 'X'

/-- Join rendered fragments with `", "`, as inside a Python container repr. -/
def joinComma : List Str → Str
  | [] => []
  | [x] => x
  | x :: xs => x ++ ", ".data ++ joinComma xs

mutual
/-- Rendering of a value by the host language's `repr`, used (through `str`)
when a value is interpolated into a formatted error message.  Modelled from
the spec: error results are descriptive strings built by the host formatter;
quoting is rendered, escaping of special characters inside strings is not
observable by any claim and is not modelled. -/
def pyRepr : Value → Str
  | .null => "None".data
  | .bool true => "True".data
  | .bool false => "False".data
  | .int i => (toString i).data
  | .str s => Char.ofNat 39 :: s ++ [Char.ofNat 39]
  | .list xs => '[' :: joinComma (pyReprL xs) ++ [']']
  | .dict d => Char.ofNat 123 :: joinComma (pyReprD d) ++ [Char.ofNat 125]

/-- `repr` of each element of a list. -/
def pyReprL : List Value → List Str
  | [] => []
  | x :: xs => pyRepr x :: pyReprL xs

/-- `repr` of each `key: value` entry of a dictionary. -/
def pyReprD : List (Str × Value) → List Str
  | [] => []
  | (k, v) :: xs => (pyRepr (.str k) ++ ": ".data ++ pyRepr v) :: pyReprD xs
end

/-- `str(v)` as used by `'{0}'.format(v)`: a string renders as itself, every
other value as its `repr`. -/
def pyStr : Value → Str
  | .str s => s
  | v => pyRepr v

/-- `'The key {0} is not a valid list'.format(key)`. -/
def notListMsg (key : Str) : Str :=
  "The key ".data ++ key ++ " is not a valid list".data

/-- `'The val {0} was already in the list {1}'.format(val, key)`. -/
def alreadyMsg (val : Value) (key : Str) : Str :=
  "The val ".data ++ pyStr val ++ " was already in the list ".data ++ key

/-- `'The val {0} was not in the list {1}'.format(val, key)`. -/
def notInMsg (val : Value) (key : Str) : Str :=
  "The val ".data ++ pyStr val ++ " was not in the list ".data ++ key

/-- Update the value stored at a delimited path inside a nested dictionary,
leaving the dictionary unchanged when the path does not lead through
mappings.  Renders the aliasing of `grains.append(val)`: the list object the
traversal returned is the one stored at that path. -/
def setPath (d : Dict) (segs : List Str) (v : Value) : Dict :=
  match segs with
  | [] => d
  | [k] => dset d k v
  | k :: rest =>
      match dget d k with
      | some (.dict sub) => dset d k (.dict (setPath sub rest v))
      | _ => d

/-- `grains.append(key, val, convert)`: read the current value at `key` with
default `[]`; wrap a non-list in a singleton list when `convert` is true;
fail with the not-a-valid-list message when still not a list; fail with the
already-in-list message when `val` is already a member; otherwise append and
persist through `setval`.  The in-place `grains.append(val)` mutates the very
list object the traversal returned, so when the list was found in the store
the store sees the grown list at that path even before (and regardless of)
the top-level `setval` write; this aliasing is rendered as an explicit path
update. -/
def append (key : Str) (val : Value) (convert : Bool) (fileRead : FileRead) (writeOk : Bool) (store : Dict) : SetvalsOut :=
  let grains0 := get store key (.list [])
  let grains1 := if !grains0.isList && convert then .list [grains0] else grains0
  match grains1 with
  | .list xs =>
      if valIn xs val then ⟨.str (alreadyMsg val key), store, none⟩
      else
        let segs := splitAll ':' key
        let store1 :=
          match traverseVal (.dict store) segs with
          | some (.list ys) => setPath store segs (.list (ys ++ [val]))
          | _ => store
        match setval key (.list (xs ++ [val])) false fileRead writeOk store1 with
        | .ok o => o
        | .error _ => ⟨.null, store1, none⟩
  | _ => ⟨.str (notListMsg key), store, none⟩

/-- `__grains__.get(grain, default)` inside `filter_by`: a plain top-level
dictionary lookup (not path-aware), falling back to the default branch name. -/
def selectorValue (store : Dict) (grain : Str) (dflt : Str) : Value :=
  match dget store grain with
  | some v => v
  | none => .str dflt

/-- The key of `lookup_dict` that
`lookup_dict.get(selector_value, lookup_dict.get(default, None))` reads its
result from: the selector value when that key is present, else the default
key when present, else none.  A non-string selector value never matches a
(string-keyed) table entry. -/
def hitKey (table : Dict) (sel : Value) (dflt : Str) : Option Str :=
  match sel with
  | .str s =>
      if (dget table s).isSome then some s
      else if (dget table dflt).isSome then some dflt else none
  | _ => if (dget table dflt).isSome then some dflt else none

mutual
/-- Modelled from the spec: `salt.utils.dictupdate.update` (not part of
`src/`), the recursive mapping union used by `filter_by` — keys in the
update override or extend the destination, nested mappings merge
recursively, non-mapping update values replace wholesale.  A non-mapping
destination contributes nothing (treated as an empty mapping). -/
def deepMergeVal (dest : Value) (upd : Value) : Value :=
  match upd with
  | .dict u => .dict (deepMergeEntries (match dest with | .dict d => d | _ => []) u)
  | _ => upd

/-- Fold the update entries into the destination dictionary. -/
def deepMergeEntries (d : Dict) (u : List (Str × Value)) : Dict :=
  match u with
  | [] => d
  | (k, v) :: rest =>
      match v with
      | .dict _ => deepMergeEntries (dset d k (deepMergeVal ((dget d k).getD (.dict [])) v)) rest
      | _ => deepMergeEntries (dset d k v) rest
end

/-- The branch selection of `filter_by` written exactly as the spec states
it: `table.get(Store.get(selector_key, default_branch), table.get(default_branch, null))`
with plain top-level lookups. -/
def selectSpec (table : Dict) (grain : Str) (dflt : Str) (store : Dict) : Value :=
  match (match selectorValue store grain dflt with
         | .str s => dget table s
         | _ => none) with
  | some b => b
  | none => (dget table dflt).getD .null

/-- Result of `filter_by`: the lookup table after the call (the in-place
deep merge mutates the selected branch object inside the caller's table) and
the returned value. -/
structure FilterOut where
  table : Dict
  ret : Value

/-- `grains.filter_by(lookup_dict, grain, merge, default)`: select the branch
`lookup_dict.get(__grains__.get(grain, default), lookup_dict.get(default, None))`;
when `merge` is truthy, raise unless it is a mapping, replace a `None` branch
by `merge`, and otherwise deep-merge `merge` into the branch in place (the
table entry and the returned value are the same merged object); a falsy
`merge` (including an empty mapping) skips all merge processing. -/
def filter_by (lookup_dict : Dict) (grain : Str) (merge : Value) (dflt : Str) (store : Dict) : Except String FilterOut :=
  let sel := selectorValue store grain dflt
  let hit := hitKey lookup_dict sel dflt
  let ret : Value :=
    match hit with
    | some k => (dget lookup_dict k).getD .null
    | none => .null
  if truthy merge then
    if !merge.isDict then
      .error "filter_by merge argument must be a dictionary."
    else if ret.isNull then
      .ok ⟨lookup_dict, merge⟩
    else
      let merged := deepMergeVal ret merge
      match hit with
      | some k => .ok ⟨dset lookup_dict k merged, merged⟩
      | none => .ok ⟨lookup_dict, merged⟩
  else
    .ok ⟨lookup_dict, ret⟩

/-- The random string `''.join([random.choice(chars) for _ in range(length)])`,
with the random generator abstracted as an oracle giving the sampled index
for each position (`random.choice` picks an index uniformly below the length
of `chars`; the oracle's value is reduced modulo that length). -/
def genval (chars : Str) (rand : Nat → Nat) (length : Nat) : Str :=
  (List.range length).map (fun i => chars.getD (rand i % chars.length) 'a')

/-- Nested dictionary with the given key chain and the value as the leaf. -/
def buildNested : List Str → Value → Value
  | [], v => v
  | [k], v => .dict [(k, v)]
  | k :: ks, v => .dict [(k, buildNested ks v)]

/-- `grains._dict_from_path(path, val)`: split the path on the delimiter
(`rsplit` with no maxsplit equals `split`) and build the nested dictionary
of that depth with `val` as the leaf. -/
def _dict_from_path (path : Str) (val : Value) : Value :=
  buildNested (splitAll ':' path) val

/-- The default charset of `get_or_set_hash`. -/
def defaultChars : Str :=
  "abcdefghijklmnopqrstuvwxyz0123456789!@#$%^&*(-_=+)".data

/-- `grains.get_or_set_hash(name, length, chars)`: if `get(name, None)` is
`None`, generate a random string; when `name` contains the delimiter, rebind
`name` to the part before the first `:` and wrap the string into the nested
dictionary mirroring the remaining path, then `setval(name, val)`; finally
return `get(name)` — with `name` as rebound, i.e. the top-level key when the
original name was delimited. -/
def get_or_set_hash (name : Str) (length : Nat) (chars : Str) (rand : Nat → Nat) (fileRead : FileRead) (writeOk : Bool) (store : Dict) : SetvalsOut :=
  let ret := get store name .null
  if ret.isNull then
    let val := Value.str (genval chars rand length)
    let nv : Str × Value :=
      if strHas ':' name then
        let p := splitFirst ':' name
        (p.1, _dict_from_path p.2 val)
      else
        (name, val)
    match setval nv.1 nv.2 false fileRead writeOk store with
    | .ok o => ⟨get o.store nv.1 (.str []), o.store, o.written⟩
    | .error _ => ⟨.null, store, none⟩
  else
    ⟨get store name (.str []), store, none⟩

/-! Helper lemmas about the dictionary and string primitives. -/

/-- Looking up a key just assigned yields the assigned value. -/
theorem dget_dset_self (d : Dict) (k : Str) (v : Value) : dget (dset d k v) k = some v := by
  induction d with
  | nil => simp [dset, dget]
  | cons hd tl ih =>
      obtain ⟨k', v'⟩ := hd
      by_cases h : k' = k
      · simp [dset, dget, h]
      · simp [dset, dget, h, ih]

/-- Looking up a key just deleted yields nothing. -/
theorem dget_ddel_self (d : Dict) (k : Str) : dget (ddel d k) k = none := by
  induction d with
  | nil => simp [ddel, dget]
  | cons hd tl ih =>
      obtain ⟨k', v'⟩ := hd
      by_cases h : k' = k
      · simp [ddel, h, ih]
      · simp [ddel, dget, h, ih]

/-- An absent key looks up to nothing. -/
theorem dget_of_dhas_false (d : Dict) (k : Str) (h : dhas d k = false) : dget d k = none := by
  unfold dhas at h
  cases hd : dget d k with
  | none => rfl
  | some v => rw [hd] at h; simp at h

/-- Splitting a string that does not contain the delimiter yields the string
as the only segment. -/
theorem splitAll_not_has (c : Char) (s : Str) (h : strHas c s = false) : splitAll c s = [s] := by
  induction s with
  | nil => rfl
  | cons x xs ih =>
      simp only [strHas, Bool.or_eq_false_iff, decide_eq_false_iff_not] at h
      simp [splitAll, ih h.2, h.1]

/-- The part before the first occurrence of the delimiter does not contain
the delimiter. -/
theorem strHas_splitFirst_fst (c : Char) (s : Str) : strHas c ((splitFirst c s).1) = false := by
  induction s with
  | nil => rfl
  | cons x xs ih =>
      by_cases h : x = c
      · simp [splitFirst, h, strHas]
      · simp [splitFirst, h, strHas, ih]

/-- On a delimiter-free key, `get` is a plain top-level lookup. -/
theorem get_single (d : Dict) (k : Str) (dflt : Value) (h : strHas ':' k = false) :
    get d k dflt = (dget d k).getD dflt := by
  unfold get
  rw [splitAll_not_has _ _ h]
  cases hk : dget d k <;> simp [traverseVal, hk]

/-- On mapping input and a readable (or missing) grains file, `setvals`
returns the processed pairs, the updated store, and the merged mapping when
the disk write succeeds. -/
theorem setvals_dict_ok (pairs : List (Str × Value)) (dtr : Bool) (fr : FileRead) (w : Bool)
    (store : Dict) (hfr : ∀ e, fr ≠ .parseError e) :
    setvals (.dict pairs) dtr fr w store =
      .ok ⟨.dict pairs, (applyGrains dtr pairs (loadedGrains fr) store).2,
           if w then some (applyGrains dtr pairs (loadedGrains fr) store).1 else none⟩ := by
  cases fr with
  | parseError e => exact absurd rfl (hfr e)
  | absent => rfl
  | parsed v => rfl

mutual
/-- `==` is reflexive on values. -/
theorem vbeq_refl : (v : Value) → vbeq v v = true
  | .null => rfl
  | .bool b => by simp [vbeq]
  | .int i => by simp [vbeq]
  | .str s => by simp [vbeq]
  | .list xs => by simp [vbeq, vbeqL_refl xs]
  | .dict d => by simp [vbeq, vbeqD_refl d]

/-- Pairwise `==` is reflexive on lists of values. -/
theorem vbeqL_refl : (xs : List Value) → vbeqL xs xs = true
  | [] => rfl
  | x :: xs => by simp [vbeqL, vbeq_refl x, vbeqL_refl xs]

/-- Pairwise `==` is reflexive on dictionary entries. -/
theorem vbeqD_refl : (d : List (Str × Value)) → vbeqD d d = true
  | [] => rfl
  | (k, v) :: xs => by simp [vbeqD, vbeq_refl v, vbeqD_refl xs]
end

/-- A value just appended to a list is a member of it. -/
theorem valIn_append_self (xs : List Value) (v : Value) : valIn (xs ++ [v]) v = true := by
  induction xs with
  | nil => simp [valIn, vbeq_refl]
  | cons x xs ih => simp [valIn] at ih ⊢; exact Or.inr ih

/-- The generated random string has the requested length. -/
theorem genval_length (chars : Str) (rand : Nat → Nat) (n : Nat) :
    (genval chars rand n).length = n := by
  simp [genval]

/-- Every character of the generated random string is drawn from the charset. -/
theorem genval_mem (chars : Str) (rand : Nat → Nat) (n : Nat) (h : chars ≠ []) :
    ∀ c ∈ genval chars rand n, c ∈ chars := by
  intro c hc
  simp only [genval, List.mem_map, List.mem_range] at hc
  obtain ⟨i, _, rfl⟩ := hc
  have hlt : rand i % chars.length < chars.length :=
    Nat.mod_lt _ (List.length_pos.mpr h)
  rw [List.getD_eq_getElem _ _ hlt]
  exact List.getElem_mem hlt


/-! Claim theorems. -/

/-- C2 counterexample: with the loaded grains file mapping empty and the
in-memory store holding `k = 1`, `setvals({'k': None}, destructive=True)`
leaves `k` set in the store — the claim requires `k` to be deleted from both
mappings with absent-key deletes being independent no-ops, but the store
delete only happens when the key is present in the loaded file mapping. -/
theorem c2_counterexample :
    setvals (.dict [(['k'], .null)]) true (.parsed (.dict [])) true [(['k'], .int 1)]
      = .ok ⟨.dict [(['k'], .null)], [(['k'], .int 1)], some []⟩ ∧
    dget [(['k'], Value.int 1)] ['k'] = some (.int 1) :=
  ⟨rfl, rfl⟩

/-- C2 (amended): in a destructive `setvals` call, a pair `(k, None)` deletes
`k` from the loaded file mapping and, only when `k` was present in that
loaded mapping, also from the store; when `k` is absent from the loaded
mapping both mappings are left unchanged even if the store holds `k`; every
pair whose value is not `None` sets `k = val` in both mappings. -/
theorem c2_amended (k : Str) (v : Value) (g0 store : Dict) (w : Bool) :
    (v.isNull = true → dhas g0 k = true →
      setvals (.dict [(k, v)]) true (.parsed (.dict g0)) w store
        = .ok ⟨.dict [(k, v)], if dhas store k then ddel store k else store,
               if w then some (ddel g0 k) else none⟩ ∧
      dget (ddel g0 k) k = none ∧
      dget (if dhas store k then ddel store k else store) k = none) ∧
    (v.isNull = true → dhas g0 k = false →
      setvals (.dict [(k, v)]) true (.parsed (.dict g0)) w store
        = .ok ⟨.dict [(k, v)], store, if w then some g0 else none⟩) ∧
    (v.isNull = false →
      setvals (.dict [(k, v)]) true (.parsed (.dict g0)) w store
        = .ok ⟨.dict [(k, v)], dset store k v, if w then some (dset g0 k v) else none⟩ ∧
      dget (dset g0 k v) k = some v ∧
      dget (dset store k v) k = some v) := by
  refine ⟨fun hv hg => ⟨?_, dget_ddel_self g0 k, ?_⟩, fun hv hg => ?_, fun hv => ⟨?_, dget_dset_self g0 k v, dget_dset_self store k v⟩⟩
  · simp [setvals, applyGrains, applyGrain, loadedGrains, hv, hg]
  · by_cases hs : dhas store k
    · simp [hs, dget_ddel_self]
    · simp [hs, dget_of_dhas_false store k (by simpa using hs)]
  · simp [setvals, applyGrains, applyGrain, loadedGrains, hv, hg]
  · simp [setvals, applyGrains, applyGrain, loadedGrains, hv]

/-- C2 witness: the amended theorem evaluated at concrete inputs covering all
three branches (present-in-file delete, absent-from-file no-op, plain set). -/
theorem c2_witness :
    (setvals (.dict [(['k'], .null)]) true (.parsed (.dict [(['k'], .int 2)])) true [(['k'], .int 3)]
        = .ok ⟨.dict [(['k'], .null)],
               if dhas [(['k'], Value.int 3)] ['k'] then ddel [(['k'], Value.int 3)] ['k'] else [(['k'], Value.int 3)],
               if true then some (ddel [(['k'], Value.int 2)] ['k']) else none⟩ ∧
      dget (ddel [(['k'], Value.int 2)] ['k']) ['k'] = none ∧
      dget (if dhas [(['k'], Value.int 3)] ['k'] then ddel [(['k'], Value.int 3)] ['k'] else [(['k'], Value.int 3)]) ['k'] = none) ∧
    (setvals (.dict [(['k'], .null)]) true (.parsed (.dict [])) true [(['k'], .int 3)]
        = .ok ⟨.dict [(['k'], .null)], [(['k'], Value.int 3)], if true then some [] else none⟩) ∧
    (setvals (.dict [(['k'], .int 5)]) true (.parsed (.dict [])) true []
        = .ok ⟨.dict [(['k'], .int 5)], dset [] ['k'] (.int 5), if true then some (dset [] ['k'] (.int 5)) else none⟩ ∧
      dget (dset [] ['k'] (Value.int 5)) ['k'] = some (.int 5) ∧
      dget (dset [] ['k'] (Value.int 5)) ['k'] = some (.int 5)) :=
  ⟨(c2_amended ['k'] .null [(['k'], .int 2)] [(['k'], .int 3)] true).1 rfl rfl,
   (c2_amended ['k'] .null [] [(['k'], .int 3)] true).2.1 rfl rfl,
   (c2_amended ['k'] (.int 5) [] [] true).2.2 rfl⟩

/-- C3 counterexample: `setval('a:b', 5)` stores the delimited path as a
literal top-level key, and `get('a:b')` then traverses the path and returns
the default (`None` here), not `5` — write-then-read fails for
delimiter-containing paths. -/
theorem c3_counterexample :
    setval ['a', ':', 'b'] (.int 5) false .absent true []
      = .ok ⟨.dict [(['a', ':', 'b'], .int 5)], [(['a', ':', 'b'], .int 5)],
             some [(['a', ':', 'b'], .int 5)]⟩ ∧
    get [(['a', ':', 'b'], Value.int 5)] ['a', ':', 'b'] .null = .null ∧
    Value.null ≠ Value.int 5 :=
  ⟨rfl, rfl, fun h => Value.noConfusion h⟩

/-- C3 (amended): for every path `p` that does not contain the delimiter and
every value `v` (scalar, list, or nested mapping), `setval(p, v)` followed by
`get(p)` returns `v` (for any default), provided the grains file load did not
fail to parse. -/
theorem c3_amended (p : Str) (v : Value) (fr : FileRead) (w : Bool) (store : Dict)
    (hp : strHas ':' p = false) (hfr : ∀ e, fr ≠ .parseError e) :
    ∃ o, setval p v false fr w store = .ok o ∧ ∀ dflt, get o.store p dflt = v := by
  rw [setval, setvals_dict_ok _ _ _ _ _ hfr]
  refine ⟨_, rfl, fun dflt => ?_⟩
  show get (applyGrains false [(p, v)] (loadedGrains fr) store).2 p dflt = v
  simp [applyGrains, applyGrain, get_single _ _ _ hp, dget_dset_self]

/-- C3 witness: the amended theorem evaluated at a scalar, a list and a
nested-mapping value. -/
theorem c3_witness :
    (∃ o, setval ['p'] (.int 7) false .absent true [] = .ok o ∧
       ∀ dflt, get o.store ['p'] dflt = .int 7) ∧
    (∃ o, setval ['p'] (.list [.int 1, .int 2]) false .absent true [] = .ok o ∧
       ∀ dflt, get o.store ['p'] dflt = .list [.int 1, .int 2]) ∧
    (∃ o, setval ['p'] (.dict [(['q'], .int 3)]) false .absent true [] = .ok o ∧
       ∀ dflt, get o.store ['p'] dflt = .dict [(['q'], .int 3)]) :=
  ⟨c3_amended ['p'] (.int 7) .absent true [] rfl (fun _ h => FileRead.noConfusion h),
   c3_amended ['p'] (.list [.int 1, .int 2]) .absent true [] rfl (fun _ h => FileRead.noConfusion h),
   c3_amended ['p'] (.dict [(['q'], .int 3)]) .absent true [] rfl (fun _ h => FileRead.noConfusion h)⟩

/-- C5: `setvals` raises exactly when its input is not a mapping; a grains
file that exists but fails to parse makes it return (not raise) the
descriptive error string carrying the underlying cause, with the store
untouched and nothing written; a file that parses to a non-mapping is
processed exactly as an empty mapping. -/
theorem c5_setvals_errors (v nv : Value) (pairs : List (Str × Value)) (d : Bool)
    (fr : FileRead) (w : Bool) (s : Dict) (e : Str) :
    ((∃ err, setvals v d fr w s = .error err) ↔ v.isDict = false) ∧
    (setvals (.dict pairs) d (.parseError e) w s
        = .ok ⟨.str ("Unable to read existing grains file: ".data ++ e), s, none⟩) ∧
    (nv.isDict = false →
      setvals (.dict pairs) d (.parsed nv) w s
        = setvals (.dict pairs) d (.parsed (.dict [])) w s) := by
  refine ⟨?_, rfl, fun h => ?_⟩
  · cases v with
    | dict pairs' => cases fr <;> simp [setvals, Value.isDict]
    | null => simp [setvals, Value.isDict]
    | bool b => simp [setvals, Value.isDict]
    | int i => simp [setvals, Value.isDict]
    | str s' => simp [setvals, Value.isDict]
    | list xs => simp [setvals, Value.isDict]
  · cases nv with
    | dict d' => simp [Value.isDict] at h
    | null => rfl
    | bool b => rfl
    | int i => rfl
    | str s' => rfl
    | list xs => rfl

/-- C5 witness: the theorem evaluated at a non-mapping input (raises), a
parse failure (returned error string), and a file parsed to a non-mapping
(treated as empty). -/
theorem c5_witness :
    ((∃ err, setvals (.int 0) false .absent true [] = .error err) ↔ Value.isDict (.int 0) = false) ∧
    (setvals (.dict [(['k'], .int 1)]) false (.parseError "boom".data) true [(['a'], .int 2)]
        = .ok ⟨.str ("Unable to read existing grains file: ".data ++ "boom".data),
               [(['a'], Value.int 2)], none⟩) ∧
    (setvals (.dict [(['k'], .int 1)]) false (.parsed .null) true []
        = setvals (.dict [(['k'], .int 1)]) false (.parsed (.dict [])) true []) :=
  ⟨(c5_setvals_errors (.int 0) .null [] false .absent true [] []).1,
   (c5_setvals_errors .null .null [(['k'], .int 1)] false .absent true [(['a'], .int 2)] "boom".data).2.1,
   (c5_setvals_errors .null .null [(['k'], .int 1)] false .absent true [] []).2.2 rfl⟩

/-- C6: the serial-number sanitizer keeps the first `⌊0.75·length⌋`
characters (the cut index is computed with truncation toward zero, as the
claim's own clarification and example state) and replaces the remainder with
the mask character `X`; a 10-character string keeps exactly 7 leading
characters and masks the 3 trailing ones. -/
theorem c6_serial_sanitizer (s : Str) :
    (_serial_sanitizer s).length = s.length ∧
    (_serial_sanitizer s).take (3 * s.length / 4) = s.take (3 * s.length / 4) ∧
    (_serial_sanitizer s).drop (3 * s.length / 4)
      = List.replicate (s.length - 3 * s.length / 4) 'X' ∧
    (s.length = 10 →
      (_serial_sanitizer s).take 7 = s.take 7 ∧
      (_serial_sanitizer s).drop 7 = List.replicate 3 'X') := by
  have hk : 3 * s.length / 4 ≤ s.length := by omega
  have h1 : (_serial_sanitizer s).length = s.length := by
    simp only [_serial_sanitizer, List.length_append, List.length_take, List.length_replicate]
    omega
  have h2 : (_serial_sanitizer s).take (3 * s.length / 4) = s.take (3 * s.length / 4) := by
    simp only [_serial_sanitizer]
    rw [List.take_append_of_le_length (by simp; omega), List.take_take]
    simp
  have h3 : (_serial_sanitizer s).drop (3 * s.length / 4)
      = List.replicate (s.length - 3 * s.length / 4) 'X' := by
    simp only [_serial_sanitizer]
    rw [List.drop_append_of_le_length (by simp; omega)]
    simp [List.drop_take]
  refine ⟨h1, h2, h3, fun hlen => ?_⟩
  have hcut : 3 * s.length / 4 = 7 := by omega
  rw [hcut] at h2 h3
  have hrem : s.length - 7 = 3 := by omega
  rw [hrem] at h3
  exact ⟨h2, h3⟩

/-- C6 witness: the sanitizer applied to the concrete 10-character string
`ABCDEFGHIJ` keeps the 7 leading characters and masks the 3 trailing ones. -/
theorem c6_witness :
    (_serial_sanitizer "ABCDEFGHIJ".data).take 7 = ("ABCDEFGHIJ".data).take 7 ∧
    (_serial_sanitizer "ABCDEFGHIJ".data).drop 7 = List.replicate 3 'X' :=
  (c6_serial_sanitizer "ABCDEFGHIJ".data).2.2.2 (by decide)

/-- C9: when serializing the merged mapping back to the grains file fails,
`setvals` leaves the in-memory store exactly as on the success path (the
same updated store for the same pairs) and still returns `new_values`
unchanged; only the `written` component differs. -/
theorem c9_write_failure (pairs : List (Str × Value)) (d : Bool) (fr : FileRead)
    (store : Dict) (hfr : ∀ e, fr ≠ .parseError e) :
    ∃ s g, setvals (.dict pairs) d fr true store = .ok ⟨.dict pairs, s, some g⟩ ∧
           setvals (.dict pairs) d fr false store = .ok ⟨.dict pairs, s, none⟩ := by
  rw [setvals_dict_ok _ _ _ _ _ hfr, setvals_dict_ok _ _ _ _ _ hfr]
  exact ⟨_, _, rfl, rfl⟩

/-- C9 witness: the theorem evaluated at a concrete destructive call whose
disk write fails. -/
theorem c9_witness :
    ∃ s g, setvals (.dict [(['k'], .int 1), (['j'], .null)]) true (.parsed (.dict [(['j'], .int 9)]))
             true [(['j'], .int 9)] = .ok ⟨.dict [(['k'], .int 1), (['j'], .null)], s, some g⟩ ∧
           setvals (.dict [(['k'], .int 1), (['j'], .null)]) true (.parsed (.dict [(['j'], .int 9)]))
             false [(['j'], .int 9)] = .ok ⟨.dict [(['k'], .int 1), (['j'], .null)], s, none⟩ :=
  c9_write_failure [(['k'], .int 1), (['j'], .null)] true (.parsed (.dict [(['j'], .int 9)]))
    [(['j'], .int 9)] (fun _ h => FileRead.noConfusion h)


/-- The value `filter_by` reads through the hit key equals the spec's
branch-selection formula. -/
theorem hit_ret_eq_selectSpec (table : Dict) (grain dflt : Str) (store : Dict) :
    (match hitKey table (selectorValue store grain dflt) dflt with
     | some k => (dget table k).getD .null
     | none => Value.null) = selectSpec table grain dflt store := by
  unfold hitKey selectSpec selectorValue
  cases hg : dget store grain with
  | none => cases ht : dget table dflt <;> simp [ht]
  | some v =>
      cases v with
      | str s =>
          cases hs : dget table s with
          | some b => simp [hs]
          | none => cases ht : dget table dflt <;> simp [hs, ht]
      | null => cases ht : dget table dflt <;> simp [ht]
      | bool b => cases ht : dget table dflt <;> simp [ht]
      | int i => cases ht : dget table dflt <;> simp [ht]
      | list xs => cases ht : dget table dflt <;> simp [ht]
      | dict d => cases ht : dget table dflt <;> simp [ht]

/-- C7: `filter_by` selects its branch exactly as
`table.get(Store.get(selector_key, default_branch), table.get(default_branch, null))`
with plain top-level lookups, and on `{'A': 'x', 'B': 'y'}` with default `'A'`
it returns `'x'` when the selector key is absent from the store and `'y'`
when the store's selector value is `'B'`. -/
theorem c7_filter_by :
    (∀ (table : Dict) (grain dflt : Str) (store : Dict),
      filter_by table grain .null dflt store = .ok ⟨table, selectSpec table grain dflt store⟩) ∧
    filter_by [(['A'], .str ['x']), (['B'], .str ['y'])] ['o', 's'] .null ['A'] []
      = .ok ⟨[(['A'], .str ['x']), (['B'], .str ['y'])], .str ['x']⟩ ∧
    filter_by [(['A'], .str ['x']), (['B'], .str ['y'])] ['o', 's'] .null ['A']
        [(['o', 's'], .str ['B'])]
      = .ok ⟨[(['A'], .str ['x']), (['B'], .str ['y'])], .str ['y']⟩ := by
  refine ⟨fun table grain dflt store => ?_, rfl, rfl⟩
  show Except.ok (FilterOut.mk table
      (match hitKey table (selectorValue store grain dflt) dflt with
       | some k => (dget table k).getD .null
       | none => Value.null)) = _
  rw [hit_ret_eq_selectSpec]

/-- C10: with a non-empty mapping `merge` and a selected branch that is a
mapping, `filter_by` deep-merges `merge` into the branch inside the caller's
table (the entry at the hit key) and returns exactly that merged entry; with
an empty mapping `merge` the truthiness gate skips all merge processing
(including the non-mapping check) and the branch is returned with the table
unchanged. -/
theorem c10_filter_by_merge (table : Dict) (grain dflt : Str) (store : Dict)
    (u : List (Str × Value)) (k : Str) (b : Dict) :
    (u ≠ [] → hitKey table (selectorValue store grain dflt) dflt = some k →
      dget table k = some (.dict b) →
      filter_by table grain (.dict u) dflt store
        = .ok ⟨dset table k (deepMergeVal (.dict b) (.dict u)),
               deepMergeVal (.dict b) (.dict u)⟩ ∧
      dget (dset table k (deepMergeVal (.dict b) (.dict u))) k
        = some (deepMergeVal (.dict b) (.dict u))) ∧
    filter_by table grain (.dict []) dflt store
      = .ok ⟨table, selectSpec table grain dflt store⟩ := by
  constructor
  · intro hu hhit hb
    refine ⟨?_, dget_dset_self _ _ _⟩
    have hu' : u.isEmpty = false := by cases u with
      | nil => exact absurd rfl hu
      | cons a l => rfl
    simp only [filter_by, truthy, hu', Bool.not_false, if_true, hhit, hb,
      Value.isDict, Bool.not_true, Bool.false_eq_true, if_false,
      Option.getD_some, Value.isNull]
  · show Except.ok (FilterOut.mk table
        (match hitKey table (selectorValue store grain dflt) dflt with
         | some q => (dget table q).getD .null
         | none => Value.null)) = _
    rw [hit_ret_eq_selectSpec]

/-- C10 witness: the theorem evaluated at a concrete table `{'A': {'p': 1}}`,
merge `{'q': 2}` and empty store. -/
theorem c10_witness :
    (filter_by [(['A'], .dict [(['p'], .int 1)])] ['g'] (.dict [(['q'], .int 2)]) ['A'] []
        = .ok ⟨dset [(['A'], .dict [(['p'], .int 1)])] ['A']
                 (deepMergeVal (.dict [(['p'], .int 1)]) (.dict [(['q'], .int 2)])),
               deepMergeVal (.dict [(['p'], .int 1)]) (.dict [(['q'], .int 2)])⟩ ∧
      dget (dset [(['A'], .dict [(['p'], .int 1)])] ['A']
              (deepMergeVal (.dict [(['p'], .int 1)]) (.dict [(['q'], .int 2)]))) ['A']
        = some (deepMergeVal (.dict [(['p'], .int 1)]) (.dict [(['q'], .int 2)]))) ∧
    filter_by [(['A'], .dict [(['p'], .int 1)])] ['g'] (.dict []) ['A'] []
      = .ok ⟨[(['A'], .dict [(['p'], .int 1)])],
             selectSpec [(['A'], .dict [(['p'], .int 1)])] ['g'] ['A'] []⟩ :=
  ⟨(c10_filter_by_merge [(['A'], .dict [(['p'], .int 1)])] ['g'] ['A'] []
      [(['q'], .int 2)] ['A'] [(['p'], .int 1)]).1 (by simp) rfl rfl,
   (c10_filter_by_merge [(['A'], .dict [(['p'], .int 1)])] ['g'] ['A'] []
      [(['q'], .int 2)] ['A'] [(['p'], .int 1)]).2⟩


/-- After a successful append on a delimiter-free key, the value read back at
the key is the grown list: the `setval` write put it at the top-level key,
which is exactly where `get` reads a delimiter-free key. -/
theorem append_get_after (key : Str) (val : Value) (convert : Bool) (fr : FileRead)
    (w : Bool) (store : Dict) (xs : List Value)
    (hk : strHas ':' key = false) (hfr : ∀ e, fr ≠ .parseError e)
    (hget : get store key (.list []) = .list xs) (hnot : valIn xs val = false) :
    get (append key val convert fr w store).store key (.list []) = .list (xs ++ [val]) := by
  unfold append
  rw [hget]
  simp only [Value.isList, Bool.not_true, Bool.false_and, Bool.false_eq_true, if_false, hnot]
  rw [setval, setvals_dict_ok _ _ _ _ _ hfr]
  rw [get_single _ _ _ hk]
  simp [applyGrains, applyGrain, dget_dset_self]

/-- C8: for every key holding a list and a value already in that list,
`append` returns the already-in-the-list error string and performs no write
(store unchanged, nothing serialized); consequently an `append` (on a
delimiter-free key, with a readable grains file) immediately followed by an
`append` of the same value errors on the second call and leaves the state of
the first call untouched. -/
theorem c8_append_already (key : Str) (val : Value) (convert : Bool) (fr fr' : FileRead)
    (w w' : Bool) (store : Dict) (xs : List Value) :
    (get store key (.list []) = .list xs → valIn xs val = true →
      append key val convert fr w store = ⟨.str (alreadyMsg val key), store, none⟩) ∧
    (strHas ':' key = false → (∀ e, fr ≠ .parseError e) →
      get store key (.list []) = .list xs → valIn xs val = false →
      append key val convert fr' w' (append key val convert fr w store).store
        = ⟨.str (alreadyMsg val key), (append key val convert fr w store).store, none⟩) := by
  have main : ∀ (st : Dict) (ys : List Value) (fr0 : FileRead) (w0 : Bool),
      get st key (.list []) = .list ys → valIn ys val = true →
      append key val convert fr0 w0 st = ⟨.str (alreadyMsg val key), st, none⟩ := by
    intro st ys fr0 w0 hg hv
    unfold append
    rw [hg]
    simp [Value.isList, hv]
  refine ⟨main store xs fr w, fun hk hfr hg hn => ?_⟩
  exact main _ (xs ++ [val]) fr' w'
    (append_get_after key val convert fr w store xs hk hfr hg hn)
    (valIn_append_self xs val)

/-- C8 witness: the theorem evaluated with `k = [3]` (second append of `3`
errors and changes nothing) and with an empty store (append then append). -/
theorem c8_witness :
    (append ['k'] (.int 3) false .absent true [(['k'], .list [.int 3])]
        = ⟨.str (alreadyMsg (.int 3) ['k']), [(['k'], .list [.int 3])], none⟩) ∧
    (append ['k'] (.int 3) false .absent true
        (append ['k'] (.int 3) false .absent true []).store
      = ⟨.str (alreadyMsg (.int 3) ['k']),
         (append ['k'] (.int 3) false .absent true []).store, none⟩) :=
  ⟨(c8_append_already ['k'] (.int 3) false .absent .absent true true
      [(['k'], .list [.int 3])] [.int 3]).1 rfl rfl,
   (c8_append_already ['k'] (.int 3) false .absent .absent true true [] []).2
      rfl (fun _ h => FileRead.noConfusion h) rfl rfl⟩


/-- C1 counterexample: on an empty store, `get_or_set_hash('a:b')` (charset
`'z'`, length 1) persists `{'b': 'z'}` under `'a'` and returns that nested
mapping — not the value re-read at the full delimited path `'a:b'`, which is
the leaf `'z'`; and on a store already holding `{'a': {'c': 1}}` the sibling
entry `'c'` under the top-level key is discarded, not preserved. -/
theorem c1_counterexample :
    (get_or_set_hash ['a', ':', 'b'] 1 ['z'] (fun _ => 0) .absent true []).ret
        = .dict [(['b'], .str ['z'])] ∧
    get (get_or_set_hash ['a', ':', 'b'] 1 ['z'] (fun _ => 0) .absent true []).store
        ['a', ':', 'b'] .null = .str ['z'] ∧
    Value.dict [(['b'], Value.str ['z'])] ≠ Value.str ['z'] ∧
    (get_or_set_hash ['a', ':', 'b'] 1 ['z'] (fun _ => 0) .absent true
        [(['a'], .dict [(['c'], .int 1)])]).store
      = [(['a'], .dict [(['b'], .str ['z'])])] :=
  ⟨rfl, rfl, fun h => Value.noConfusion h, rfl⟩

/-- C1 (amended): for every name containing the delimiter whose path is not
already set, `get_or_set_hash` splits the name into a top-level key and a
remaining path, builds the nested mapping mirroring the remaining segments
with the generated string as the leaf, persists it by replacing the value
under the top-level key (entries already present under that top-level key
are discarded, not preserved), and returns the value re-read at the
top-level key — the nested mapping itself, not the leaf at the full
delimited path. -/
theorem c1_amended (name : Str) (length : Nat) (chars : Str) (rand : Nat → Nat)
    (fr : FileRead) (w : Bool) (store : Dict)
    (hdelim : strHas ':' name = true)
    (hunset : (get store name .null).isNull = true)
    (hfr : ∀ e, fr ≠ .parseError e) :
    (get_or_set_hash name length chars rand fr w store).store
        = dset store (splitFirst ':' name).1
            (buildNested (splitAll ':' (splitFirst ':' name).2)
              (.str (genval chars rand length))) ∧
    (get_or_set_hash name length chars rand fr w store).ret
        = buildNested (splitAll ':' (splitFirst ':' name).2)
            (.str (genval chars rand length)) := by
  have hk := strHas_splitFirst_fst ':' name
  have hsv := fun (p : Str) (v : Value) => setvals_dict_ok [(p, v)] false fr w store hfr
  simp only [get_or_set_hash, hunset, hdelim, if_true, setval, hsv, applyGrains,
    List.foldl, applyGrain, Bool.and_false, Bool.false_eq_true, if_false, _dict_from_path]
  refine ⟨trivial, ?_⟩
  rw [get_single _ _ _ hk, dget_dset_self]
  rfl

/-- C1 witness: the amended theorem evaluated at `'a:b'` on an empty store. -/
theorem c1_witness :
    (get_or_set_hash ['a', ':', 'b'] 1 ['z'] (fun _ => 0) .absent true []).store
        = dset [] (splitFirst ':' ['a', ':', 'b']).1
            (buildNested (splitAll ':' (splitFirst ':' ['a', ':', 'b']).2)
              (.str (genval ['z'] (fun _ => 0) 1))) ∧
    (get_or_set_hash ['a', ':', 'b'] 1 ['z'] (fun _ => 0) .absent true []).ret
        = buildNested (splitAll ':' (splitFirst ':' ['a', ':', 'b']).2)
            (.str (genval ['z'] (fun _ => 0) 1)) :=
  c1_amended ['a', ':', 'b'] 1 ['z'] (fun _ => 0) .absent true [] rfl rfl
    (fun _ h => FileRead.noConfusion h)

/-- C4 counterexample: `get_or_set_hash('a:b')` is not idempotent — on an
empty store the first call returns the nested mapping `{'b': 'z'}` while the
immediately following call with the same arguments returns the leaf `'z'`. -/
theorem c4_counterexample :
    (get_or_set_hash ['a', ':', 'b'] 1 ['z'] (fun _ => 0) .absent true []).ret
        = .dict [(['b'], .str ['z'])] ∧
    (get_or_set_hash ['a', ':', 'b'] 1 ['z'] (fun _ => 0) .absent true
        (get_or_set_hash ['a', ':', 'b'] 1 ['z'] (fun _ => 0) .absent true []).store).ret
        = .str ['z'] ∧
    Value.dict [(['b'], Value.str ['z'])] ≠ Value.str ['z'] :=
  ⟨rfl, rfl, fun h => Value.noConfusion h⟩

/-- C4 (amended): `get_or_set_hash` is idempotent for delimiter-free names
(two successive calls return the identical value and leave the same store,
when the grains file reads cleanly); a pre-existing non-null value at the
path is returned unchanged with the store untouched and is never
overwritten; a freshly generated value has exactly the requested length and
draws every character from the provided (non-empty) charset.  For
delimiter-containing names idempotence fails: the first call returns the
nested mapping and later calls the leaf (see the counterexample). -/
theorem c4_amended (name : Str) (n : Nat) (chars : Str) (rand : Nat → Nat)
    (fr fr' : FileRead) (w w' : Bool) (store : Dict) :
    (strHas ':' name = false → (∀ e, fr ≠ .parseError e) →
      (get_or_set_hash name n chars rand fr' w'
          (get_or_set_hash name n chars rand fr w store).store).ret
        = (get_or_set_hash name n chars rand fr w store).ret ∧
      (get_or_set_hash name n chars rand fr' w'
          (get_or_set_hash name n chars rand fr w store).store).store
        = (get_or_set_hash name n chars rand fr w store).store) ∧
    (∀ v, traverseVal (.dict store) (splitAll ':' name) = some v → v.isNull = false →
      get_or_set_hash name n chars rand fr w store = ⟨v, store, none⟩) ∧
    ((genval chars rand n).length = n ∧
     (chars ≠ [] → ∀ c ∈ genval chars rand n, c ∈ chars)) := by
  have hbranch : ∀ (st : Dict) (fr0 : FileRead) (w0 : Bool) (v : Value),
      traverseVal (.dict st) (splitAll ':' name) = some v → v.isNull = false →
      get_or_set_hash name n chars rand fr0 w0 st = ⟨v, st, none⟩ := by
    intro st fr0 w0 v hv hnull
    have hg0 : get st name .null = v := by rw [get, hv]; rfl
    have hg1 : get st name (.str []) = v := by rw [get, hv]; rfl
    simp only [get_or_set_hash, hg0, hg1, hnull, Bool.false_eq_true, if_false]
  refine ⟨fun hnd hfr => ?_, hbranch store fr w, genval_length chars rand n,
    fun h => genval_mem chars rand n h⟩
  by_cases h0 : (get store name .null).isNull
  · have hsv := fun (p : Str) (v : Value) => setvals_dict_ok [(p, v)] false fr w store hfr
    have hfirst : ∃ wr, get_or_set_hash name n chars rand fr w store
        = ⟨.str (genval chars rand n), dset store name (.str (genval chars rand n)), wr⟩ := by
      refine ⟨if w then some (applyGrains false [(name, .str (genval chars rand n))]
        (loadedGrains fr) store).1 else none, ?_⟩
      simp only [get_or_set_hash, h0, hnd, Bool.false_eq_true, if_false, if_true, setval, hsv,
        applyGrains, List.foldl, applyGrain, Bool.and_false]
      rw [get_single _ _ _ hnd, dget_dset_self]
      rfl
    obtain ⟨wr, hfirst⟩ := hfirst
    have ht : traverseVal (.dict (dset store name (.str (genval chars rand n))))
        (splitAll ':' name) = some (.str (genval chars rand n)) := by
      rw [splitAll_not_has _ _ hnd]
      simp [traverseVal, dget_dset_self]
    have hsecond := hbranch (dset store name (.str (genval chars rand n))) fr' w'
      (.str (genval chars rand n)) ht rfl
    rw [hfirst, hsecond]
    exact ⟨rfl, rfl⟩
  · cases ht : traverseVal (.dict store) (splitAll ':' name) with
    | none =>
        exfalso
        apply h0
        rw [get, ht]
        rfl
    | some v =>
        have hv : v.isNull = false := by
          rw [get, ht] at h0
          simpa using h0
        have h1 := hbranch store fr w v ht hv
        have h2 := hbranch store fr' w' v ht hv
        rw [h1, h2]
        exact ⟨rfl, rfl⟩

/-- C4 witness: the amended theorem evaluated at a delimiter-free name on an
empty store (both calls agree), at a store already holding a non-null value
(returned unchanged, store untouched), and at the concrete charset `'z'`
(length 2, membership of the sampled character). -/
theorem c4_witness :
    ((get_or_set_hash ['p'] 1 ['z'] (fun _ => 0) .absent true
          (get_or_set_hash ['p'] 1 ['z'] (fun _ => 0) .absent true []).store).ret
        = (get_or_set_hash ['p'] 1 ['z'] (fun _ => 0) .absent true []).ret ∧
      (get_or_set_hash ['p'] 1 ['z'] (fun _ => 0) .absent true
          (get_or_set_hash ['p'] 1 ['z'] (fun _ => 0) .absent true []).store).store
        = (get_or_set_hash ['p'] 1 ['z'] (fun _ => 0) .absent true []).store) ∧
    (get_or_set_hash ['p'] 1 ['z'] (fun _ => 0) .absent true [(['p'], .int 2)]
        = ⟨.int 2, [(['p'], .int 2)], none⟩) ∧
    ((genval ['z'] (fun _ => 0) 2).length = 2 ∧
      ('z' : Char) ∈ (['z'] : List Char)) := by
  have h := c4_amended ['p'] 1 ['z'] (fun _ => 0) .absent .absent true true []
  have h2 := c4_amended ['p'] 1 ['z'] (fun _ => 0) .absent .absent true true [(['p'], .int 2)]
  have h3 := c4_amended ['p'] 2 ['z'] (fun _ => 0) .absent .absent true true []
  exact ⟨h.1 rfl (fun _ hx => FileRead.noConfusion hx),
    h2.2.1 (.int 2) rfl rfl,
    h3.2.2.1,
    h3.2.2.2 (by decide) 'z' (by decide)⟩

end grains
